import Mathlib

/-!
# EcoMind decision pipeline — verification development

Shallow embedding of the EcoMind model-routing core: the tier-to-model
selector and suggestion engine, the semantic-cache similarity gate, the
savings ledger aggregates, and the frontend chat handlers and API client.

The backend server implementing model selection, the suggestion check, the
cache gate and the ledger endpoints is not part of the repository snapshot
(only its READMEs and its HTTP callers are), so those components are
modelled from the specification, as marked on each definition.  The
frontend handlers and the API client are translated from
`frontend/components/chat-area.tsx` and `frontend/lib/api.ts`.
-/

/-- A catalog entry of the model database.  Costs are currency per 1000
tokens and CO₂ is grams per call; both are modelled as exact rationals. -/
structure ModelRecord where
  id : String
  provider : String
  complexityTier : Nat
  costInputPerK : Rat
  costOutputPerK : Rat
  co2Grams : Rat
deriving DecidableEq, Repr

/-- Strict selection preference: `a` is strictly preferred to `b` when it
has lower `costInputPerK`, ties broken by lower `co2Grams`, then by lower
`complexityTier`. -/
def selBefore (a b : ModelRecord) : Prop :=
  a.costInputPerK < b.costInputPerK ∨
    (a.costInputPerK = b.costInputPerK ∧
      (a.co2Grams < b.co2Grams ∨
        (a.co2Grams = b.co2Grams ∧ a.complexityTier < b.complexityTier)))

instance (a b : ModelRecord) : Decidable (selBefore a b) := by
  unfold selBefore; infer_instance

/-- Equality of the three selection keys (cost, CO₂, tier). -/
def keyEq (a b : ModelRecord) : Prop :=
  a.costInputPerK = b.costInputPerK ∧ a.co2Grams = b.co2Grams ∧
    a.complexityTier = b.complexityTier

/-- Non-strict selection preference. -/
def selLeq (a b : ModelRecord) : Prop := selBefore a b ∨ keyEq a b

/-- One step of the selection fold: keep the accumulator unless the new
record is strictly preferred. -/
def pickBetter (a m : ModelRecord) : ModelRecord :=
  if selBefore m a then m else a

/-- Fold the selection preference over a candidate list. -/
def selectAmong : ModelRecord → List ModelRecord → ModelRecord
  | a, [] => a
  | a, m :: ms => selectAmong (pickBetter a m) ms

/-- Fold keeping the record with the highest `complexityTier`. -/
def maxTierAmong : ModelRecord → List ModelRecord → ModelRecord
  | a, [] => a
  | a, m :: ms =>
      maxTierAmong (if a.complexityTier < m.complexityTier then m else a) ms

/-- Modelled from the spec: `selectForComplexity` of the Model Selector
(backend server source absent from the snapshot).  Among all catalog
records with `complexityTier ≥ score` it picks the lowest-cost one (ties:
CO₂, then tier); when no record clears the bar it falls back to the
highest-tier record available; `none` only on an empty catalog. -/
def selectForComplexity (catalog : List ModelRecord) (score : Nat) :
    Option ModelRecord :=
  match catalog.filter (fun m => decide (score ≤ m.complexityTier)) with
  | c :: cs => some (selectAmong c cs)
  | [] =>
      match catalog with
      | [] => none
      | c :: cs => some (maxTierAmong c cs)

/-- A suggestion produced by the suggestion engine (contract B). -/
structure SuggestionDecision where
  currentModel : ModelRecord
  suggestedModel : ModelRecord
  complexityScore : Nat
  isUnderEngineered : Bool
  costDelta : Rat
  co2Delta : Rat
deriving DecidableEq, Repr

/-- Modelled from the spec: `evaluate` of the Suggestion Engine (backend
server source absent from the snapshot).  `tierGap = chosenModel tier −
score`; no suggestion inside the dead-band `|tierGap| < 3`; with
`tierGap ≥ 3` the chosen model is over-engineered (suggest the cheapest
adequate record, `isUnderEngineered = false`, deltas `chosen − suggested`);
with `tierGap ≤ -3` it is under-powered (suggest the cheapest record with
`complexityTier ≥ score`, `isUnderEngineered = true`, deltas the added
cost/CO₂ of the safer model). -/
def evaluate (catalog : List ModelRecord) (score : Nat)
    (chosen : ModelRecord) : Option SuggestionDecision :=
  let tierGap : Int := (chosen.complexityTier : Int) - (score : Int)
  if tierGap.natAbs < 3 then none
  else if 3 ≤ tierGap then
    match selectForComplexity catalog score with
    | none => none
    | some s =>
        some ⟨chosen, s, score, false, chosen.costInputPerK - s.costInputPerK,
          chosen.co2Grams - s.co2Grams⟩
  else
    match selectForComplexity catalog score with
    | none => none
    | some s =>
        some ⟨chosen, s, score, true, s.costInputPerK - chosen.costInputPerK,
          s.co2Grams - chosen.co2Grams⟩

/-- The semantic-cache similarity threshold. -/
def SIMILARITY_THRESHOLD : Rat := 9 / 10

/-- One nearest-neighbor result from the vector index. -/
structure CacheMatch where
  similarity : Rat
  answerText : String
  sourceModelId : String
deriving DecidableEq, Repr

/-- Modelled from the spec: the Semantic Cache Gate's decision on the
nearest-neighbor list returned by the vector index (backend server source
absent from the snapshot).  The top match is accepted as a hit only if its
similarity is at least the 0.90 threshold. -/
def cacheLookup (results : List CacheMatch) : Option CacheMatch :=
  match results with
  | [] => none
  | top :: _ =>
      if SIMILARITY_THRESHOLD ≤ top.similarity then some top else none

/-- A persisted savings row (mirrors `db/savings.sql`).  `createdAt` is a
calendar-day index; the query preview is kept as a character list. -/
structure SavingsRecord where
  createdAt : Nat
  originalModelId : String
  originalModelName : String
  suggestedModelId : String
  suggestedModelName : String
  costSavedInput : Rat
  costSavedOutput : Rat
  co2Saved : Rat
  complexityLevel : Nat
  queryPreview : List Char
deriving DecidableEq, Repr

/-- Modelled from the spec: the ledger's `listAll`, newest first; the
ledger state is the append-only log itself (newest at the head). -/
def listAll (ledger : List SavingsRecord) : List SavingsRecord := ledger

/-- The rollup returned by the ledger's `totals`. -/
structure Totals where
  totalCost : Rat
  totalCo2 : Rat
  totalSwitches : Nat
deriving DecidableEq, Repr

/-- One accumulation step of `totals`. -/
def totalsStep (acc : Totals) (r : SavingsRecord) : Totals :=
  ⟨acc.totalCost + (r.costSavedInput + r.costSavedOutput),
   acc.totalCo2 + r.co2Saved, acc.totalSwitches + 1⟩

/-- Modelled from the spec: the ledger's `totals`, computed as running
sums over all records (backend server source absent from the snapshot). -/
def totals (ledger : List SavingsRecord) : Totals :=
  ledger.foldl totalsStep ⟨0, 0, 0⟩

/-- One per-day aggregate bucket of `byPeriod`. -/
structure DayBucket where
  day : Nat
  costSaved : Rat
  co2Saved : Rat
deriving DecidableEq, Repr

/-- Total cost saved (input + output) by the records of day `d`. -/
def dayCost (ledger : List SavingsRecord) (d : Nat) : Rat :=
  ((ledger.filter (fun r => decide (r.createdAt = d))).map
    (fun r => r.costSavedInput + r.costSavedOutput)).sum

/-- Total CO₂ saved by the records of day `d`. -/
def dayCo2 (ledger : List SavingsRecord) (d : Nat) : Rat :=
  ((ledger.filter (fun r => decide (r.createdAt = d))).map
    (fun r => r.co2Saved)).sum

/-- Modelled from the spec: the ledger's `byPeriod`, one bucket per
calendar day over the trailing `days`-day window ending at `today`,
zero-activity days included (backend server source absent from the
snapshot). -/
def byPeriod (ledger : List SavingsRecord) (today days : Nat) :
    List DayBucket :=
  (List.range days).map fun i =>
    let d := today + 1 - days + i
    ⟨d, dayCost ledger d, dayCo2 ledger d⟩

/-- A model as exposed by the frontend API client (`lib/api.ts`). -/
structure Model where
  id : String
  name : String
  provider : String
  complexity_level : Nat
  co2 : Rat
  cost_input_tokens : Rat
  cost_output_tokens : Rat
deriving DecidableEq, Repr

/-- JavaScript `v || d` on an optional number: the default replaces both a
missing value and a zero (zero is falsy in JavaScript). -/
def jsOrNat (v : Option Nat) (d : Nat) : Nat :=
  match v with
  | none => d
  | some n => if n = 0 then d else n

/-- JavaScript `v || d` on an optional rational. -/
def jsOrRat (v : Option Rat) (d : Rat) : Rat :=
  match v with
  | none => d
  | some x => if x = 0 then d else x

/-- A chat message role. -/
inductive Role where
  | user
  | assistant
deriving DecidableEq, Repr

/-- A chat message; content is kept as a character list so that the
`substring` truncation of the query preview is observable. -/
structure ChatMsg where
  role : Role
  content : List Char
deriving DecidableEq, Repr

/-- The savings block of a model suggestion (`cost_output_tokens` is an
optional field in the TypeScript interface). -/
structure Savings where
  cost_input_tokens : Rat
  cost_output_tokens : Option Rat
  co2 : Rat
deriving DecidableEq, Repr

/-- The `model_suggestion` object held in the chat component's state,
as the runtime guards of `chat-area.tsx` read it: `savings` and
`is_under_engineered` may be absent/falsy. -/
structure ModelSuggestion where
  suggested_model : Model
  reason : List Char
  savings : Option Savings
  is_under_engineered : Bool
deriving DecidableEq, Repr

/-- The request body of `sendChatMessage` (`ChatRequest` in `api.ts`);
the three flags are optional fields. -/
structure ChatRequest where
  messages : List ChatMsg
  model_id : Option String
  user_selected : Option Bool
  skip_suggestion_check : Option Bool
deriving DecidableEq, Repr

/-- The parts of the `/chat` response the accept/keep handlers read.
`complexity_detected` is optional at runtime (and `0` is falsy). -/
structure ChatResponse where
  message : ChatMsg
  model_used : String
  complexity_detected : Option Nat
deriving DecidableEq, Repr

/-- The payload of a `recordSavings` call (`api.ts`). -/
structure RecordPayload where
  original_model_id : String
  original_model_name : String
  suggested_model_id : String
  suggested_model_name : String
  cost_saved_input : Rat
  cost_saved_output : Rat
  co2_saved : Rat
  complexity_level : Nat
  query_preview : List Char
deriving DecidableEq, Repr

/-- The observable effects of one button handler: the chat request it
re-sends (if any) and the savings payload it records (if any). -/
structure ClickEffects where
  sentRequest : Option ChatRequest
  recorded : Option RecordPayload
deriving DecidableEq, Repr

/-- The placeholder message text removed before re-sending
(`chat-area.tsx`). -/
def placeholderText : List Char :=
  "Please review the model suggestion below before proceeding with your request.".toList

/-- Drop the trailing placeholder message if present (`chat-area.tsx`,
both handlers). -/
def stripPlaceholder (msgs : List ChatMsg) : List ChatMsg :=
  match msgs.getLast? with
  | none => msgs
  | some last => if last.content = placeholderText then msgs.dropLast else msgs

/-- Append the pending query as a user message unless it is already the
last context message (`chat-area.tsx`, both handlers). -/
def ensureQueryLast (msgs : List ChatMsg) (q : List Char) : List ChatMsg :=
  match msgs.getLast? with
  | none => msgs ++ [⟨Role.user, q⟩]
  | some last =>
      if last.role = Role.user ∧ last.content = q then msgs
      else msgs ++ [⟨Role.user, q⟩]

/-- The "Switch to suggested model" button handler of `chat-area.tsx`
(lines 491–584): when the suggested model is found in the catalog and a
pending query exists, re-send the query with the suggested model and
`skip_suggestion_check: true`; on a successful response, record savings
only when the original model is known, the suggestion carries a savings
object and it is not under-engineered.  `response` is the value returned
by `sendChatMessage` for the re-sent request. -/
def acceptClick (models : List Model) (suggestion : ModelSuggestion)
    (pendingQuery : Option (List Char)) (originalModel : Option Model)
    (activeMessages : List ChatMsg) (response : Option ChatResponse) :
    ClickEffects :=
  match models.find? (fun m => m.id == suggestion.suggested_model.id),
      pendingQuery with
  | some suggested, some q =>
      let ctx := ensureQueryLast (stripPlaceholder activeMessages) q
      let req : ChatRequest := ⟨ctx, some suggested.id, some true, some true⟩
      match response with
      | none => ⟨some req, none⟩
      | some resp =>
          match originalModel, suggestion.savings,
              suggestion.is_under_engineered with
          | some orig, some sav, false =>
              ⟨some req, some
                ⟨orig.id, orig.name, suggested.id, suggested.name,
                 sav.cost_input_tokens, jsOrRat sav.cost_output_tokens 0,
                 sav.co2, jsOrNat resp.complexity_detected 5,
                 q.take 100⟩⟩
          | _, _, _ => ⟨some req, none⟩
  | _, _ => ⟨none, none⟩

/-- The "Keep Current" button handler of `chat-area.tsx` (lines 591–671):
when the original model and a pending query exist, re-send the query with
the original model and `skip_suggestion_check: true`; it never records a
savings entry. -/
def keepCurrentClick (pendingQuery : Option (List Char))
    (originalModel : Option Model) (activeMessages : List ChatMsg) :
    ClickEffects :=
  match originalModel, pendingQuery with
  | some orig, some q =>
      let ctx := ensureQueryLast (stripPlaceholder activeMessages) q
      ⟨some (⟨ctx, some orig.id, some true, some true⟩ : ChatRequest), none⟩
  | _, _ => ⟨none, none⟩

/-- Modelled from the spec: the backend chat pipeline's suggestion gate
(backend server source absent from the snapshot).  A request carrying
`skip_suggestion_check` suppresses contract B entirely; otherwise the
suggestion engine is consulted. -/
def chatSuggestionGate (catalog : List ModelRecord) (score : Nat)
    (chosen : ModelRecord) (req : ChatRequest) : Option SuggestionDecision :=
  if req.skip_suggestion_check.getD false = true then none
  else evaluate catalog score chosen

/-- The outcome of one `fetch` call as observed by an API-client
function: a parsed OK payload, a non-OK HTTP status, or a thrown
network/parse error (caught by the surrounding `try`). -/
inductive FetchOutcome (α : Type) where
  | ok (payload : α)
  | httpError
  | netThrow
deriving DecidableEq, Repr

/-- The `/complexity` response (`ComplexityResponse` in `api.ts`). -/
structure ComplexityResponse where
  complexity_level : Nat
  recommended_model : Model
deriving DecidableEq, Repr

/-- The `/suggest-model` response (`ModelSuggestionResponse` in
`api.ts`). -/
structure ModelSuggestionResponse where
  should_change : Bool
  current_model : Model
  suggested_model : Option Model
  reason : Option (List Char)
  savings : Option Savings
deriving DecidableEq, Repr

/-- The `/savings/total` response shape with its all-zero fallback. -/
structure TotalSavings where
  total_cost : Rat
  total_co2 : Rat
  total_switches : Nat
deriving DecidableEq, Repr

/-- `fetchModels` (`api.ts` 80–93): empty array on non-OK or thrown. -/
def fetchModels : FetchOutcome (List Model) → List Model
  | .ok ms => ms
  | .httpError => []
  | .netThrow => []

/-- `analyzeComplexity` (`api.ts` 98–115): `null` on non-OK or thrown. -/
def analyzeComplexity : FetchOutcome ComplexityResponse →
    Option ComplexityResponse
  | .ok r => some r
  | .httpError => none
  | .netThrow => none

/-- `getModelSuggestion` (`api.ts` 120–143): `null` on non-OK or
thrown. -/
def getModelSuggestion : FetchOutcome ModelSuggestionResponse →
    Option ModelSuggestionResponse
  | .ok r => some r
  | .httpError => none
  | .netThrow => none

/-- `sendChatMessage` (`api.ts` 148–165): `null` on non-OK or thrown. -/
def sendChatMessage : FetchOutcome ChatResponse → Option ChatResponse
  | .ok r => some r
  | .httpError => none
  | .netThrow => none

/-- `recordSavings` (`api.ts` 170–190): returns `response.ok`, and
`false` when the request throws. -/
def recordSavings (_data : RecordPayload) : FetchOutcome Unit → Bool
  | .ok _ => true
  | .httpError => false
  | .netThrow => false

/-- `getAllSavings` (`api.ts` 195–205): `data.savings || []`, and the
empty array on non-OK or thrown. -/
def getAllSavings : FetchOutcome (Option (List SavingsRecord)) →
    List SavingsRecord
  | .ok d => d.getD []
  | .httpError => []
  | .netThrow => []

/-- `getTotalSavings` (`api.ts` 210–223): the all-zero totals object on
non-OK or thrown. -/
def getTotalSavings : FetchOutcome TotalSavings → TotalSavings
  | .ok t => t
  | .httpError => ⟨0, 0, 0⟩
  | .netThrow => ⟨0, 0, 0⟩

/-- `getSavingsByPeriod` (`api.ts` 228–238): `data.data || []`, and the
empty array on non-OK or thrown. -/
def getSavingsByPeriod (_days : Nat) :
    FetchOutcome (Option (List DayBucket)) → List DayBucket
  | .ok d => d.getD []
  | .httpError => []
  | .netThrow => []

/-- One row of `/savings/model-stats`. -/
structure ModelStat where
  original_model_name : String
  suggested_model_name : String
  switch_count : Nat
deriving DecidableEq, Repr

/-- `getModelStats` (`api.ts` 243–253): `data.stats || []`, and the empty
array on non-OK or thrown. -/
def getModelStats : FetchOutcome (Option (List ModelStat)) →
    List ModelStat
  | .ok d => d.getD []
  | .httpError => []
  | .netThrow => []

/-- Concrete catalog record (values from the backend README example). -/
def demoRecA : ModelRecord := ⟨"gpt-4o-mini", "OpenAI", 4, 1, 2, 1⟩

/-- Concrete catalog record: a tier-9 premium model. -/
def demoRecB : ModelRecord := ⟨"gpt-4o", "OpenAI", 9, 5, 10, 8⟩

/-- Concrete two-model catalog. -/
def demoCatalog : List ModelRecord := [demoRecB, demoRecA]

/-- Concrete ledger record on day 29. -/
def demoSaving : SavingsRecord :=
  ⟨29, "gpt-4o", "GPT-4o", "gpt-4o-mini", "GPT-4o Mini", 2, 9, 1, 3,
   ['h', 'i']⟩

/-- Concrete one-record ledger. -/
def demoLedger : List SavingsRecord := [demoSaving]

/-- Concrete frontend model: the suggested (cheaper) one. -/
def demoModelA : Model := ⟨"m-small", "Small", "OpenAI", 3, 1, 1, 2⟩

/-- Concrete frontend model: the originally selected one. -/
def demoModelB : Model := ⟨"m-big", "Big", "OpenAI", 9, 8, 5, 10⟩

/-- Concrete frontend model list. -/
def demoModels : List Model := [demoModelA, demoModelB]

/-- Concrete downgrade suggestion with a savings object. -/
def demoSugg : ModelSuggestion :=
  ⟨demoModelA, ['o', 'k'], some ⟨2, some 3, 1⟩, false⟩

/-- Concrete pending query. -/
def demoQ : List Char := ['h', 'i']

/-- Concrete chat response with a detected complexity of 7. -/
def demoResp : ChatResponse := ⟨⟨Role.assistant, []⟩, "m-small", some 7⟩

/-- Concrete expected savings payload for the demo accept click. -/
def demoPayload : RecordPayload :=
  ⟨"m-big", "Big", "m-small", "Small", 2, 3, 1, 7, ['h', 'i']⟩

/-- Concrete expected re-sent request for the demo keep-current click. -/
def demoReqKeep : ChatRequest :=
  ⟨[⟨Role.user, ['h', 'i']⟩], some "m-big", some true, some true⟩

theorem selLeq_refl (a : ModelRecord) : selLeq a a :=
  Or.inr ⟨rfl, rfl, rfl⟩

theorem selBefore_or_selLeq (m a : ModelRecord) :
    selBefore m a ∨ selLeq a m := by
  rcases lt_trichotomy m.costInputPerK a.costInputPerK with h | h | h
  · exact Or.inl (Or.inl h)
  · rcases lt_trichotomy m.co2Grams a.co2Grams with g | g | g
    · exact Or.inl (Or.inr ⟨h, Or.inl g⟩)
    · rcases Nat.lt_trichotomy m.complexityTier a.complexityTier with
        t | t | t
      · exact Or.inl (Or.inr ⟨h, Or.inr ⟨g, t⟩⟩)
      · exact Or.inr (Or.inr ⟨h.symm, g.symm, t.symm⟩)
      · exact Or.inr (Or.inl (Or.inr ⟨h.symm, Or.inr ⟨g.symm, t⟩⟩))
    · exact Or.inr (Or.inl (Or.inr ⟨h.symm, Or.inl g⟩))
  · exact Or.inr (Or.inl (Or.inl h))

theorem selBefore_trans {a b c : ModelRecord} (h₁ : selBefore a b)
    (h₂ : selBefore b c) : selBefore a c := by
  unfold selBefore at *
  rcases h₁ with h₁ | ⟨e₁, h₁⟩
  · rcases h₂ with h₂ | ⟨e₂, h₂⟩
    · exact Or.inl (lt_trans h₁ h₂)
    · exact Or.inl (lt_of_lt_of_eq h₁ e₂)
  · rcases h₂ with h₂ | ⟨e₂, h₂⟩
    · exact Or.inl (lt_of_eq_of_lt e₁ h₂)
    · refine Or.inr ⟨e₁.trans e₂, ?_⟩
      rcases h₁ with h₁ | ⟨f₁, h₁⟩
      · rcases h₂ with h₂ | ⟨f₂, h₂⟩
        · exact Or.inl (lt_trans h₁ h₂)
        · exact Or.inl (lt_of_lt_of_eq h₁ f₂)
      · rcases h₂ with h₂ | ⟨f₂, h₂⟩
        · exact Or.inl (lt_of_eq_of_lt f₁ h₂)
        · exact Or.inr ⟨f₁.trans f₂, Nat.lt_trans h₁ h₂⟩

theorem selBefore_congr_left {a b c : ModelRecord} (e : keyEq a b)
    (h : selBefore b c) : selBefore a c := by
  unfold selBefore at *
  rw [e.1, e.2.1, e.2.2]
  exact h

theorem selBefore_congr_right {a b c : ModelRecord} (e : keyEq b c)
    (h : selBefore a b) : selBefore a c := by
  unfold selBefore at *
  rw [← e.1, ← e.2.1, ← e.2.2]
  exact h

theorem selLeq_trans {a b c : ModelRecord} (h₁ : selLeq a b)
    (h₂ : selLeq b c) : selLeq a c := by
  rcases h₁ with h₁ | e₁
  · rcases h₂ with h₂ | e₂
    · exact Or.inl (selBefore_trans h₁ h₂)
    · exact Or.inl (selBefore_congr_right e₂ h₁)
  · rcases h₂ with h₂ | e₂
    · exact Or.inl (selBefore_congr_left e₁ h₂)
    · exact Or.inr
        ⟨e₁.1.trans e₂.1, e₁.2.1.trans e₂.2.1, e₁.2.2.trans e₂.2.2⟩

theorem pickBetter_mem (a m : ModelRecord) :
    pickBetter a m = a ∨ pickBetter a m = m := by
  unfold pickBetter
  split
  · exact Or.inr rfl
  · exact Or.inl rfl

theorem pickBetter_leq_left (a m : ModelRecord) :
    selLeq (pickBetter a m) a := by
  by_cases h : selBefore m a
  · simp only [pickBetter, if_pos h]
    exact Or.inl h
  · simp only [pickBetter, if_neg h]
    exact selLeq_refl a

theorem pickBetter_leq_right (a m : ModelRecord) :
    selLeq (pickBetter a m) m := by
  by_cases h : selBefore m a
  · simp only [pickBetter, if_pos h]
    exact selLeq_refl m
  · simp only [pickBetter, if_neg h]
    rcases selBefore_or_selLeq m a with h' | h'
    · exact absurd h' h
    · exact h'

theorem selectAmong_mem :
    ∀ (ms : List ModelRecord) (a : ModelRecord),
      selectAmong a ms ∈ a :: ms := by
  intro ms
  induction ms with
  | nil => intro a; simp [selectAmong]
  | cons m ms ih =>
      intro a
      show selectAmong (pickBetter a m) ms ∈ a :: m :: ms
      rcases List.mem_cons.mp (ih (pickBetter a m)) with h | h
      · rw [h]
        rcases pickBetter_mem a m with e | e <;> rw [e] <;> simp
      · simp [h]

theorem selectAmong_min :
    ∀ (ms : List ModelRecord) (a x : ModelRecord),
      x ∈ a :: ms → selLeq (selectAmong a ms) x := by
  intro ms
  induction ms with
  | nil =>
      intro a x hx
      simp only [List.mem_cons, List.not_mem_nil, or_false] at hx
      rw [hx]
      exact selLeq_refl a
  | cons m ms ih =>
      intro a x hx
      show selLeq (selectAmong (pickBetter a m) ms) x
      rcases List.mem_cons.mp hx with h | h
      · rw [h]
        exact selLeq_trans
          (ih (pickBetter a m) _ (List.mem_cons_self _ _))
          (pickBetter_leq_left a m)
      · rcases List.mem_cons.mp h with h' | h'
        · rw [h']
          exact selLeq_trans
            (ih (pickBetter a m) _ (List.mem_cons_self _ _))
            (pickBetter_leq_right a m)
        · exact ih (pickBetter a m) x (List.mem_cons_of_mem _ h')

theorem maxTierAmong_mem :
    ∀ (ms : List ModelRecord) (a : ModelRecord),
      maxTierAmong a ms ∈ a :: ms := by
  intro ms
  induction ms with
  | nil => intro a; simp [maxTierAmong]
  | cons m ms ih =>
      intro a
      show maxTierAmong (if a.complexityTier < m.complexityTier then m
        else a) ms ∈ a :: m :: ms
      rcases List.mem_cons.mp
          (ih (if a.complexityTier < m.complexityTier then m else a)) with
        h | h
      · rw [h]
        split <;> simp
      · simp [h]

theorem maxTierAmong_max :
    ∀ (ms : List ModelRecord) (a x : ModelRecord),
      x ∈ a :: ms →
        x.complexityTier ≤ (maxTierAmong a ms).complexityTier := by
  intro ms
  induction ms with
  | nil =>
      intro a x hx
      simp only [List.mem_cons, List.not_mem_nil, or_false] at hx
      rw [hx]
      exact Nat.le_refl _
  | cons m ms ih =>
      intro a x hx
      show x.complexityTier ≤
        (maxTierAmong (if a.complexityTier < m.complexityTier then m
          else a) ms).complexityTier
      have hstep : ∀ y : ModelRecord,
          y ∈ (if a.complexityTier < m.complexityTier then m else a) ::
            ms →
          y.complexityTier ≤
            (maxTierAmong (if a.complexityTier < m.complexityTier then m
              else a) ms).complexityTier :=
        fun y hy => ih _ y hy
      rcases List.mem_cons.mp hx with h | h
      · subst h
        by_cases hc : x.complexityTier < m.complexityTier
        · calc x.complexityTier ≤ m.complexityTier := Nat.le_of_lt hc
            _ ≤ _ := by
              refine hstep m ?_
              rw [if_pos hc]
              exact List.mem_cons_self _ _
        · refine hstep x ?_
          rw [if_neg hc]
          exact List.mem_cons_self _ _
      · rcases List.mem_cons.mp h with h' | h'
        · subst h'
          by_cases hc : a.complexityTier < x.complexityTier
          · refine hstep x ?_
            rw [if_pos hc]
            exact List.mem_cons_self _ _
          · calc x.complexityTier ≤ a.complexityTier := Nat.le_of_not_lt hc
              _ ≤ _ := by
                refine hstep a ?_
                rw [if_neg hc]
                exact List.mem_cons_self _ _
        · exact hstep x (List.mem_cons_of_mem _ h')

/-- Claim C1: for every complexity score `s ∈ [1,10]` and non-empty
catalog, `selectForComplexity s` returns a catalog record; among records
with `complexityTier ≥ s` (when any exists) it has `complexityTier ≥ s`
and is minimal for the cost/CO₂/tier preference; and when no record has
`complexityTier ≥ s` it is a highest-tier record of the catalog. -/
theorem selectForComplexity_spec (catalog : List ModelRecord) (s : Nat)
    (hs : 1 ≤ s ∧ s ≤ 10) (hne : catalog ≠ []) :
    ∃ r, selectForComplexity catalog s = some r ∧ r ∈ catalog ∧
      ((∃ m ∈ catalog, s ≤ m.complexityTier) →
        s ≤ r.complexityTier ∧
          ∀ m ∈ catalog, s ≤ m.complexityTier → selLeq r m) ∧
      ((∀ m ∈ catalog, m.complexityTier < s) →
        ∀ m ∈ catalog, m.complexityTier ≤ r.complexityTier) := by
  unfold selectForComplexity
  cases hf : catalog.filter (fun m => decide (s ≤ m.complexityTier)) with
  | cons c cs =>
      refine ⟨selectAmong c cs, rfl, ?_, ?_, ?_⟩
      · have hm : selectAmong c cs ∈
            catalog.filter (fun m => decide (s ≤ m.complexityTier)) :=
          hf ▸ selectAmong_mem cs c
        exact List.mem_of_mem_filter hm
      · intro _
        constructor
        · have hm : selectAmong c cs ∈
              catalog.filter (fun m => decide (s ≤ m.complexityTier)) :=
            hf ▸ selectAmong_mem cs c
          simpa using List.of_mem_filter hm
        · intro m hmem hts
          have hm : m ∈
              catalog.filter (fun m => decide (s ≤ m.complexityTier)) :=
            List.mem_filter.mpr ⟨hmem, by simpa⟩
          rw [hf] at hm
          exact selectAmong_min cs c m hm
      · intro hall
        have hc : c ∈
            catalog.filter (fun m => decide (s ≤ m.complexityTier)) := by
          rw [hf]; exact List.mem_cons_self _ _
        have h1 : c ∈ catalog := List.mem_of_mem_filter hc
        have h2 : s ≤ c.complexityTier := by
          simpa using List.of_mem_filter hc
        exact absurd h2 (Nat.not_le.mpr (hall c h1))
  | nil =>
      cases catalog with
      | nil => exact absurd rfl hne
      | cons c cs =>
          refine ⟨maxTierAmong c cs, rfl, maxTierAmong_mem cs c, ?_, ?_⟩
          · rintro ⟨m, hm, hsm⟩
            have hmem : m ∈
                (c :: cs).filter
                  (fun m => decide (s ≤ m.complexityTier)) :=
              List.mem_filter.mpr ⟨hm, by simpa⟩
            rw [hf] at hmem
            exact absurd hmem (List.not_mem_nil m)
          · intro _ m hm
            exact maxTierAmong_max cs c m hm

/-- Witness for C1 at a concrete score and catalog. -/
theorem selectForComplexity_spec_witness :
    selectForComplexity demoCatalog 2 = some demoRecA ∧
      demoRecA ∈ demoCatalog := by
  obtain ⟨r, hr, hmem, -, -⟩ := selectForComplexity_spec demoCatalog 2
    ⟨by decide, by decide⟩ (by decide)
  have hc : selectForComplexity demoCatalog 2 = some demoRecA := by decide
  rw [hc] at hr
  exact ⟨hc, Option.some.inj hr ▸ hmem⟩

theorem selectForComplexity_ne_none (catalog : List ModelRecord)
    (s : Nat) (hne : catalog ≠ []) :
    ∃ r, selectForComplexity catalog s = some r := by
  unfold selectForComplexity
  cases hf : catalog.filter (fun m => decide (s ≤ m.complexityTier)) with
  | cons c cs => exact ⟨_, rfl⟩
  | nil =>
      cases catalog with
      | nil => exact absurd rfl hne
      | cons c cs => exact ⟨_, rfl⟩

/-- Claim C2: for scores and chosen tiers in `[1,10]` over a non-empty
catalog, `evaluate` returns no suggestion iff `|tierGap| < 3`; with
`tierGap ≥ 3` it returns a decision with `isUnderEngineered = false`, and
with `tierGap ≤ -3` one with `isUnderEngineered = true`. -/
theorem evaluate_spec (catalog : List ModelRecord) (s : Nat)
    (chosen : ModelRecord) (hs : 1 ≤ s ∧ s ≤ 10)
    (hc : 1 ≤ chosen.complexityTier ∧ chosen.complexityTier ≤ 10)
    (hne : catalog ≠ []) :
    (evaluate catalog s chosen = none ↔
      ((chosen.complexityTier : Int) - (s : Int)).natAbs < 3) ∧
    (3 ≤ (chosen.complexityTier : Int) - (s : Int) →
      ∃ d, evaluate catalog s chosen = some d ∧
        d.isUnderEngineered = false) ∧
    ((chosen.complexityTier : Int) - (s : Int) ≤ -3 →
      ∃ d, evaluate catalog s chosen = some d ∧
        d.isUnderEngineered = true) := by
  obtain ⟨r, hr⟩ := selectForComplexity_ne_none catalog s hne
  by_cases h1 : ((chosen.complexityTier : Int) - (s : Int)).natAbs < 3
  · have he : evaluate catalog s chosen = none := by
      simp only [evaluate]
      rw [if_pos h1]
    refine ⟨⟨fun _ => h1, fun _ => he⟩, ?_, ?_⟩
    · intro h2
      exfalso
      omega
    · intro h2
      exfalso
      omega
  · by_cases h2 : 3 ≤ (chosen.complexityTier : Int) - (s : Int)
    · have he : evaluate catalog s chosen = some
          ⟨chosen, r, s, false, chosen.costInputPerK - r.costInputPerK,
           chosen.co2Grams - r.co2Grams⟩ := by
        simp only [evaluate]
        rw [if_neg h1, if_pos h2, hr]
      refine ⟨⟨?_, fun hlt => absurd hlt h1⟩, fun _ => ⟨_, he, rfl⟩, ?_⟩
      · intro h
        rw [he] at h
        exact absurd h (by simp)
      · intro h3
        exfalso
        omega
    · have he : evaluate catalog s chosen = some
          ⟨chosen, r, s, true, r.costInputPerK - chosen.costInputPerK,
           r.co2Grams - chosen.co2Grams⟩ := by
        simp only [evaluate]
        rw [if_neg h1, if_neg h2, hr]
      refine ⟨⟨?_, fun hlt => absurd hlt h1⟩,
        fun hg => absurd hg h2, fun _ => ⟨_, he, rfl⟩⟩
      intro h
      rw [he] at h
      exact absurd h (by simp)

/-- Witness for C2: a tier gap of 3 triggers an over-engineered
suggestion, and a gap of 2 stays inside the dead-band. -/
theorem evaluate_spec_witness :
    (∃ d, evaluate demoCatalog 6 demoRecB = some d ∧
      d.isUnderEngineered = false) ∧
    evaluate demoCatalog 7 demoRecB = none := by
  have h := evaluate_spec demoCatalog 6 demoRecB ⟨by decide, by decide⟩
    ⟨by decide, by decide⟩ (by decide)
  exact ⟨h.2.1 (by decide), by decide⟩

/-- Claim C3: the semantic cache accepts the top vector-index match as a
hit iff its similarity is at least 0.90; in particular similarity exactly
0.90 is a hit and 0.899 is a miss. -/
theorem cacheLookup_threshold_spec :
    (∀ (top : CacheMatch) (rest : List CacheMatch),
      cacheLookup (top :: rest) = some top ↔
        SIMILARITY_THRESHOLD ≤ top.similarity) ∧
    (∀ (top : CacheMatch) (rest : List CacheMatch),
      cacheLookup (top :: rest) = none ↔
        top.similarity < SIMILARITY_THRESHOLD) ∧
    cacheLookup [⟨9 / 10, "answer", "model"⟩] =
      some ⟨9 / 10, "answer", "model"⟩ ∧
    cacheLookup [⟨899 / 1000, "answer", "model"⟩] = none := by
  refine ⟨?_, ?_, ?_, ?_⟩
  · intro top rest
    by_cases h : SIMILARITY_THRESHOLD ≤ top.similarity
    · simp [cacheLookup, h]
    · simp [cacheLookup, h]
  · intro top rest
    by_cases h : SIMILARITY_THRESHOLD ≤ top.similarity
    · simp [cacheLookup, h]
    · simp [cacheLookup, h]
      exact lt_of_not_le h
  · simp only [cacheLookup]
    rw [if_pos (by norm_num [SIMILARITY_THRESHOLD])]
  · simp only [cacheLookup]
    rw [if_neg (by norm_num [SIMILARITY_THRESHOLD])]

theorem totals_foldl (l : List SavingsRecord) :
    ∀ acc : Totals, l.foldl totalsStep acc =
      ⟨acc.totalCost +
        (l.map (fun r => r.costSavedInput + r.costSavedOutput)).sum,
       acc.totalCo2 + (l.map (fun r => r.co2Saved)).sum,
       acc.totalSwitches + l.length⟩ := by
  induction l with
  | nil =>
      intro acc
      cases acc
      simp
  | cons r l ih =>
      intro acc
      cases acc
      simp [List.foldl_cons, ih, totalsStep]
      refine ⟨by ring, by ring, by omega⟩

/-- Claim C4: the ledger's `totals` equals the elementwise sum over
`listAll`: total cost is the sum of `costSavedInput + costSavedOutput`,
total CO₂ the sum of `co2Saved`, and the switch count the number of
records. -/
theorem totals_eq_sum_listAll (ledger : List SavingsRecord) :
    (totals ledger).totalCost =
      ((listAll ledger).map
        (fun r => r.costSavedInput + r.costSavedOutput)).sum ∧
    (totals ledger).totalCo2 =
      ((listAll ledger).map (fun r => r.co2Saved)).sum ∧
    (totals ledger).totalSwitches = (listAll ledger).length := by
  unfold totals listAll
  rw [totals_foldl ledger ⟨0, 0, 0⟩]
  simp

/-- Claim C5: `byPeriod 30` returns exactly 30 day-buckets in
chronological order, and its buckets are exactly the days of the trailing
30-day window (zero-activity days included) carrying that day's summed
cost and CO₂ savings. -/
theorem byPeriod_thirty (ledger : List SavingsRecord) (today : Nat)
    (h : 29 ≤ today) :
    (byPeriod ledger today 30).length = 30 ∧
    List.Pairwise (fun a b => a.day < b.day) (byPeriod ledger today 30) ∧
    (∀ b : DayBucket, b ∈ byPeriod ledger today 30 ↔
      (today - 29 ≤ b.day ∧ b.day ≤ today ∧
        b.costSaved = dayCost ledger b.day ∧
        b.co2Saved = dayCo2 ledger b.day)) := by
  refine ⟨?_, ?_, ?_⟩
  · simp [byPeriod]
  · unfold byPeriod
    rw [List.pairwise_map]
    refine List.Pairwise.imp ?_ (List.pairwise_lt_range 30)
    intro i j hij
    simp only
    omega
  · intro b
    unfold byPeriod
    rw [List.mem_map]
    constructor
    · rintro ⟨i, hi, hb⟩
      rw [List.mem_range] at hi
      rw [← hb]
      dsimp only
      refine ⟨by omega, by omega, rfl, rfl⟩
    · rintro ⟨h1, h2, h3, h4⟩
      refine ⟨b.day - (today + 1 - 30), ?_, ?_⟩
      · rw [List.mem_range]
        omega
      · have hd : today + 1 - 30 + (b.day - (today + 1 - 30)) = b.day := by
          omega
        simp only [hd]
        cases b
        simp only at h3 h4
        simp [h3, h4]

/-- Witness for C5 at a concrete ledger and day. -/
theorem byPeriod_thirty_witness :
    (byPeriod demoLedger 29 30).length = 30 :=
  (byPeriod_thirty demoLedger 29 (by decide)).1

/-- Claim C6: a savings entry is recorded only by the accept handler,
only when the suggestion is a downgrade (`is_under_engineered = false`)
carrying a savings object; the keep-current handler never records one. -/
theorem savings_only_on_accepted_downgrade (models : List Model)
    (suggestion : ModelSuggestion) (pq : Option (List Char))
    (om : Option Model) (msgs : List ChatMsg)
    (resp : Option ChatResponse) :
    (keepCurrentClick pq om msgs).recorded = none ∧
    (∀ p, (acceptClick models suggestion pq om msgs resp).recorded =
        some p →
      suggestion.is_under_engineered = false ∧
        suggestion.savings.isSome = true) ∧
    (∀ sugg q orig sav r,
      models.find? (fun m => m.id == suggestion.suggested_model.id) =
        some sugg →
      pq = some q → om = some orig → suggestion.savings = some sav →
      suggestion.is_under_engineered = false → resp = some r →
      ∃ pay, (acceptClick models suggestion pq om msgs resp).recorded =
        some pay) := by
  refine ⟨?_, ?_, ?_⟩
  · unfold keepCurrentClick
    rcases om with _ | o <;> rcases pq with _ | q <;> simp
  · intro p hp
    unfold acceptClick at hp
    repeat' split at hp
    all_goals simp_all
  · intro sugg q orig sav r hf hpq hom hsav hiu hresp
    subst hpq
    subst hom
    subst hresp
    unfold acceptClick
    rw [hf, hsav, hiu]
    exact ⟨_, rfl⟩

/-- Witness for C6: the demo accept click records the expected payload,
and its suggestion is a downgrade. -/
theorem savings_only_on_accepted_downgrade_witness :
    (acceptClick demoModels demoSugg (some demoQ) (some demoModelB) []
      (some demoResp)).recorded = some demoPayload ∧
    demoSugg.is_under_engineered = false := by
  have h := savings_only_on_accepted_downgrade demoModels demoSugg
    (some demoQ) (some demoModelB) [] (some demoResp)
  have hc : (acceptClick demoModels demoSugg (some demoQ)
      (some demoModelB) [] (some demoResp)).recorded = some demoPayload :=
    by decide
  exact ⟨hc, (h.2.1 demoPayload hc).1⟩

/-- Claim C7: every request re-sent after the user resolves a suggestion
(accept or keep current) carries `skip_suggestion_check = true`, and the
chat pipeline's suggestion gate returns no suggestion for any such
request. -/
theorem resend_carries_skip_flag (models : List Model)
    (suggestion : ModelSuggestion) (pq : Option (List Char))
    (om : Option Model) (msgs : List ChatMsg) (resp : Option ChatResponse)
    (catalog : List ModelRecord) (score : Nat) (chosen : ModelRecord) :
    (∀ req, (acceptClick models suggestion pq om msgs resp).sentRequest =
        some req → req.skip_suggestion_check = some true) ∧
    (∀ req, (keepCurrentClick pq om msgs).sentRequest = some req →
      req.skip_suggestion_check = some true) ∧
    (∀ req : ChatRequest, req.skip_suggestion_check = some true →
      chatSuggestionGate catalog score chosen req = none) := by
  refine ⟨?_, ?_, ?_⟩
  · intro req hreq
    unfold acceptClick at hreq
    repeat' split at hreq
    all_goals simp_all
    all_goals rw [← hreq]
  · intro req hreq
    unfold keepCurrentClick at hreq
    repeat' split at hreq
    all_goals simp_all
    all_goals rw [← hreq]
  · intro req hreq
    unfold chatSuggestionGate
    rw [hreq]
    simp

/-- Witness for C7: the demo keep-current click re-sends with the skip
flag set, and the gate then yields no suggestion. -/
theorem resend_carries_skip_flag_witness :
    (keepCurrentClick (some demoQ) (some demoModelB) []).sentRequest =
      some demoReqKeep ∧
    demoReqKeep.skip_suggestion_check = some true ∧
    chatSuggestionGate demoCatalog 5 demoRecB demoReqKeep = none := by
  have h := resend_carries_skip_flag demoModels demoSugg (some demoQ)
    (some demoModelB) [] (some demoResp) demoCatalog 5 demoRecB
  have hc : (keepCurrentClick (some demoQ) (some demoModelB)
      []).sentRequest = some demoReqKeep := by decide
  have hs := h.2.1 demoReqKeep hc
  exact ⟨hc, hs, h.2.2 demoReqKeep hs⟩

/-- Claim C8: the recorded `query_preview` is the truncation of the
pending query to at most 100 characters (a length-bounded prefix). -/
theorem query_preview_truncated (models : List Model)
    (suggestion : ModelSuggestion) (q : List Char) (om : Option Model)
    (msgs : List ChatMsg) (resp : Option ChatResponse) (p : RecordPayload)
    (hp : (acceptClick models suggestion (some q) om msgs resp).recorded =
      some p) :
    p.query_preview = q.take 100 ∧ p.query_preview.length ≤ 100 ∧
      p.query_preview ++ q.drop 100 = q := by
  have hq : p.query_preview = q.take 100 := by
    unfold acceptClick at hp
    repeat' split at hp
    all_goals simp_all
    all_goals rw [← hp]
  refine ⟨hq, ?_, ?_⟩
  · rw [hq, List.length_take]
    exact min_le_left _ _
  · rw [hq]
    exact List.take_append_drop 100 q

/-- Witness for C8 at the demo accept click. -/
theorem query_preview_truncated_witness :
    demoPayload.query_preview = demoQ.take 100 ∧
      demoPayload.query_preview.length ≤ 100 := by
  have h := query_preview_truncated demoModels demoSugg demoQ
    (some demoModelB) [] (some demoResp) demoPayload (by decide)
  exact ⟨h.1, h.2.1⟩

/-- Claim C9: the complexity level stored with an accepted switch is the
response's detected complexity when it is a usable score, and the
documented default 5 when it is absent (or the falsy 0). -/
theorem complexity_level_fallback (models : List Model)
    (suggestion : ModelSuggestion) (pq : Option (List Char))
    (om : Option Model) (msgs : List ChatMsg) (resp : ChatResponse)
    (p : RecordPayload)
    (hp : (acceptClick models suggestion pq om msgs
      (some resp)).recorded = some p) :
    p.complexity_level = jsOrNat resp.complexity_detected 5 ∧
    (resp.complexity_detected = none → p.complexity_level = 5) ∧
    (resp.complexity_detected = some 0 → p.complexity_level = 5) ∧
    (∀ c, resp.complexity_detected = some c → 1 ≤ c →
      p.complexity_level = c) := by
  have hc : p.complexity_level = jsOrNat resp.complexity_detected 5 := by
    unfold acceptClick at hp
    repeat' split at hp
    all_goals simp_all
    all_goals rw [← hp]
  refine ⟨hc, ?_, ?_, ?_⟩
  · intro h
    rw [hc, h]
    rfl
  · intro h
    rw [hc, h]
    rfl
  · intro c h h1
    rw [hc, h]
    simp only [jsOrNat]
    split
    · omega
    · rfl

/-- Witness for C9: the demo response detects complexity 7 and the
recorded payload stores 7. -/
theorem complexity_level_fallback_witness :
    demoPayload.complexity_level = 7 := by
  have h := complexity_level_fallback demoModels demoSugg (some demoQ)
    (some demoModelB) [] demoResp demoPayload (by decide)
  exact h.2.2.2 7 (by decide) (by decide)

/-- Claim C10: every API-client function is total over the fetch
outcome and returns its documented default on a non-OK status or a
thrown request: `[]` for the list fetchers, `none` for the object
fetchers, `false` for `recordSavings`, and the all-zero totals for
`getTotalSavings`. -/
theorem api_client_error_defaults :
    fetchModels FetchOutcome.httpError = [] ∧
    fetchModels FetchOutcome.netThrow = [] ∧
    analyzeComplexity FetchOutcome.httpError = none ∧
    analyzeComplexity FetchOutcome.netThrow = none ∧
    getModelSuggestion FetchOutcome.httpError = none ∧
    getModelSuggestion FetchOutcome.netThrow = none ∧
    sendChatMessage FetchOutcome.httpError = none ∧
    sendChatMessage FetchOutcome.netThrow = none ∧
    (∀ data : RecordPayload,
      recordSavings data FetchOutcome.httpError = false ∧
      recordSavings data FetchOutcome.netThrow = false) ∧
    getTotalSavings FetchOutcome.httpError = ⟨0, 0, 0⟩ ∧
    getTotalSavings FetchOutcome.netThrow = ⟨0, 0, 0⟩ ∧
    getAllSavings FetchOutcome.httpError = [] ∧
    getAllSavings FetchOutcome.netThrow = [] ∧
    (∀ days : Nat,
      getSavingsByPeriod days FetchOutcome.httpError = [] ∧
      getSavingsByPeriod days FetchOutcome.netThrow = []) ∧
    getModelStats FetchOutcome.httpError = [] ∧
    getModelStats FetchOutcome.netThrow = [] := by
  refine ⟨rfl, rfl, rfl, rfl, rfl, rfl, rfl, rfl, fun d => ⟨rfl, rfl⟩,
    rfl, rfl, rfl, rfl, fun d => ⟨rfl, rfl⟩, rfl, rfl⟩
